import Mathlib

/-!
Shallow embedding of the srthandler repository (SubRip .srt handling).

The repository contains two revisions of the same module:
  * src/subrip.py            (version 0.9.3, imported by the srtmanip CLI)
  * src/srthandler/__init__.py (version 0.9.5, the installed package)
Both are embedded here.  Where the two revisions agree (the parser, the
layer operations, to_secs) a single definition carries the shared logic,
translated from src/subrip.py; where they differ materially (to_timestr)
both revisions are embedded under distinct names.

Python floats are modelled as exact rationals (ℚ); strings are modelled as
Lean strings / lists of characters restricted to ASCII (Python's \d and
str.isnumeric also cover non-ASCII Unicode digits, which no .srt data uses);
Python exceptions are modelled as Option/Except failure values.
-/

namespace Srthandler

/-! ## Character and digit utilities (models of Python primitives) -/

/-- Model of Python's whitespace class `\s` / `str.strip` for ASCII:
space, tab, newline, carriage return, vertical tab, form feed. -/
def pyIsSpace (c : Char) : Bool :=
  c = ' ' || c = '\t' || c = '\n' || c = '\r' || c = '\x0b' || c = '\x0c'

/-- Model of Python's `str.strip()`: drop whitespace from both ends. -/
def pyStrip (cs : List Char) : List Char :=
  ((cs.dropWhile pyIsSpace).reverse.dropWhile pyIsSpace).reverse

/-- Model of Python's `str.isnumeric()` restricted to ASCII decimal digits:
nonempty and all digits. -/
def pyIsNumeric (cs : List Char) : Bool :=
  !cs.isEmpty && cs.all Char.isDigit

/-- Numeric value of a decimal digit character. -/
def digitVal (c : Char) : ℕ := c.toNat - 48

/-- Numeric value of a string of decimal digits (most significant first),
as produced by Python's `float`/`int` on a digit-only string. -/
def digitsVal (cs : List Char) : ℕ :=
  cs.foldl (fun a c => 10 * a + digitVal c) 0

/-- Decimal digits of a natural number, most significant first (the digits
Python prints for a nonnegative integer). -/
def natToChars (n : ℕ) : List Char :=
  if h : n < 10 then [Char.ofNat (48 + n)]
  else natToChars (n / 10) ++ [Char.ofNat (48 + n % 10)]
termination_by n
decreasing_by exact Nat.div_lt_self (by omega) (by omega)

/-- Decimal rendering of an integer, with a leading minus sign when negative
(Python's `str`/`'{:d}'` on an int). -/
def intToChars (i : ℤ) : List Char :=
  if i < 0 then '-' :: natToChars i.natAbs else natToChars i.toNat

/-- Left-pad a character list with copies of `c` up to width `w`. -/
def leftPad (c : Char) (w : ℕ) (s : List Char) : List Char :=
  List.replicate (w - s.length) c ++ s

/-- Model of Python's `'{:02d}'.format(i)`: minimum width 2, zero padding;
the sign of a negative number counts toward the width and precedes the
padding. -/
def format02d (i : ℤ) : List Char :=
  if i < 0 then '-' :: leftPad '0' 1 (natToChars i.natAbs)
  else leftPad '0' 2 (natToChars i.toNat)

/-! ## Python numeric primitives over ℚ -/

/-- Python `x % y` on floats (`y > 0` in all uses): `x - y * floor (x / y)`. -/
def pyMod (x y : ℚ) : ℚ := x - y * ⌊x / y⌋

/-- Python `int()` truncation of a float toward zero. -/
def pyInt (q : ℚ) : ℤ := if q < 0 then -⌊-q⌋ else ⌊q⌋

/-- Round a rational to the nearest integer, ties to even: the rounding
Python's float formatting (`'{:.3f}'` applied to `q / 1000`) performs.
The embedding applies it to the exact rational value. -/
def roundHalfEven (q : ℚ) : ℤ :=
  let f := ⌊q⌋
  let r := q - f
  if r < 1 / 2 then f
  else if 1 / 2 < r then f + 1
  else if Even f then f else f + 1

/-- Model of Python's `'{:.3f}'.format(q)` for `q ≥ 0` (its only use sites
receive `seconds % 60 ∈ [0, 60)`): the value rounded to three decimals,
rendered as integer part, a period, and exactly three fractional digits. -/
def format3f (q : ℚ) : List Char :=
  let mc := roundHalfEven (q * 1000)
  intToChars (mc / 1000) ++ '.' :: leftPad '0' 3 (natToChars (mc % 1000).toNat)

/-! ## to_secs (src/subrip.py lines 19-42; identical logic in
src/srthandler/__init__.py lines 17-40)

The regex `^(\d+:)?(\d+:)?(\d+[.,]?\d*)$` is deterministic on its input
language: an optional group `(\d+:)` matches exactly when the input starts
with a nonempty digit run followed by a colon (`\d+` cannot cross the
colon, and no backtracking alternative can turn an overall failure into a
success, since the final group cannot contain a colon). -/

/-- One optional regex group `(\d+:)?`: returns the digit run (colon
stripped, as `float(p.rstrip(':'))` does) and the rest, or `none` leaving
the input unconsumed. -/
def colonGroup (cs : List Char) : Option (List Char) × List Char :=
  let ds := cs.takeWhile Char.isDigit
  let rest := cs.dropWhile Char.isDigit
  if ds.isEmpty then (none, cs)
  else
    match rest with
    | ':' :: rs => (some ds, rs)
    | _ => (none, cs)

/-- The final regex group `(\d+[.,]?\d*)$` together with Python's
`float(p.replace(',', '.'))` on it: the whole remaining input must be a
digit run, optionally followed by one of `.`/`,` and further digits. -/
def secsVal (cs : List Char) : Option ℚ :=
  let ip := cs.takeWhile Char.isDigit
  let rest := cs.dropWhile Char.isDigit
  if ip.isEmpty then none
  else
    match rest with
    | [] => some (digitsVal ip)
    | c :: rs =>
      if (c = '.' || c = ',') && rs.all Char.isDigit then
        some ((digitsVal ip : ℚ) + (digitsVal rs : ℚ) / 10 ^ rs.length)
      else none

/-- Full match of `^(\d+:)?(\d+:)?(\d+[.,]?\d*)$`, groups converted to
numbers as `to_secs` does. -/
def timepointGroups (cs : List Char) : Option (Option ℕ × Option ℕ × ℚ) :=
  let p1 := colonGroup cs
  let p2 := colonGroup p1.2
  (secsVal p2.2).map fun s => (p1.1.map digitsVal, p2.1.map digitsVal, s)

/-- The `while None in m.groups(): time = '00:' + time` loop of `to_secs`.
After an initial successful match the loop pads at most twice, so fuel 3
always suffices; prepending `00:` can never break an existing match. -/
def to_secs_loop : ℕ → List Char → Option ℚ
  | 0, _ => none
  | fuel + 1, cs =>
    match timepointGroups cs with
    | none => none
    | some (some h, some m, s) => some (h * 3600 + m * 60 + s)
    | some _ => to_secs_loop fuel ('0' :: '0' :: ':' :: cs)

/-- Embeds `to_secs(time)`: convert a time string into seconds.  A leading `-`
negates the whole value; `ValueError` (no regex match) is modelled as
`none`. -/
def to_secs (time : String) : Option ℚ :=
  if time.data.head? = some '-' then (to_secs_loop 3 time.data.tail).map fun q => -1 * q
  else (to_secs_loop 3 time.data).map fun q => 1 * q

/-! ## to_timestr, version 0.9.3 (src/subrip.py lines 44-56) -/

/-- Embeds `to_timestr(seconds)` as in src/subrip.py 0.9.3:
`hrs = '{:02d}'.format(int(seconds // 3600))`,
`mins = '{:02d}'.format(int(seconds % 3600) // 60)`,
`secs = '{:.3f}'.format(seconds % 60).replace('.', ',')`, zero-padding the
seconds field when the comma sits at index 1. -/
def to_timestr (seconds : ℚ) : String :=
  let hrs := format02d ⌊seconds / 3600⌋
  let mins := format02d (Int.fdiv (pyInt (pyMod seconds 3600)) 60)
  let secs0 := (format3f (pyMod seconds 60)).map fun c => if c = '.' then ',' else c
  let secs := if secs0.indexOf ',' = 1 then '0' :: secs0 else secs0
  ⟨hrs ++ ':' :: mins ++ ':' :: secs⟩

/-! ## to_timestr, version 0.9.5 (src/srthandler/__init__.py lines 42-54)

The 0.9.5 rewrite uses f-strings.  Python's `:02d` format spec raises
`ValueError` when applied to a float, and in the minutes component the
format spec sits outside the braces entirely, so a literal `:02d` is
appended to `str((seconds % 3600) // 60)`.  Python ints and floats are
distinguished here because `//` keeps the operand's kind and `:02d` only
accepts ints. -/

/-- A Python number: an int or a float (modelled exactly as a rational). -/
inductive PyNum where
  | int (n : ℤ)
  | float (q : ℚ)
deriving DecidableEq

/-- Rational value of a Python number. -/
def PyNum.val : PyNum → ℚ
  | .int n => n
  | .float q => q

/-- Python `x // m` for integer `m`: floor division, keeping the kind. -/
def pyFloorDivNum : PyNum → ℤ → PyNum
  | .int n, m => .int (Int.fdiv n m)
  | .float q, m => .float (⌊q / m⌋ : ℤ)

/-- Python `x % m` for integer `m > 0`: remainder in `[0, m)`, keeping the
kind. -/
def pyModNum : PyNum → ℤ → PyNum
  | .int n, m => .int (Int.emod n m)
  | .float q, m => .float (q - m * ⌊q / m⌋)

/-- Python `f'{x:02d}'`: formats an int, raises `ValueError` on a float. -/
def pyFormat02d : PyNum → Option (List Char)
  | .int n => some (format02d n)
  | .float _ => none

/-- Python `str(x)`.  Every float this embedding applies it to is a result
of floor division, hence integral, rendered by Python as `<int>.0`. -/
def pyStr : PyNum → List Char
  | .int n => intToChars n
  | .float q => intToChars ⌊q⌋ ++ ['.', '0']

/-- Python `f'{x:06.3f}'` for `x ≥ 0` (its one use site receives
`seconds % 60`): three decimals, zero-padded to total width 6. -/
def pyFormat06_3f (x : PyNum) : List Char :=
  leftPad '0' 6 (format3f x.val)

/-- Embeds `to_timestr(seconds)` as in src/srthandler/__init__.py 0.9.5.
`none` models the `ValueError` raised by `f'{seconds // 3600:02d}'` when
`seconds` is a float. -/
def to_timestr_v095 (seconds : PyNum) : Option String :=
  match pyFormat02d (pyFloorDivNum seconds 3600) with
  | none => none
  | some hrs =>
    let mins := pyStr (pyFloorDivNum (pyModNum seconds 3600) 60) ++ [':', '0', '2', 'd']
    let secs := (pyFormat06_3f (pyModNum seconds 60)).map fun c => if c = '.' then ',' else c
    some ⟨hrs ++ ':' :: mins ++ ':' :: secs⟩

/-! ## SubtextEntry (src/subrip.py lines 74-149) -/

/-- One subtitle: in-time and out-time in seconds, text as the list of
lines kept in the private `__text` attribute (the `text` property joins
them with newlines). -/
structure SubtextEntry where
  intime : ℚ
  outtime : ℚ
  text : List String
deriving DecidableEq

/-- The `text` property getter: lines joined with newlines. -/
def SubtextEntry.textStr (e : SubtextEntry) : String :=
  String.intercalate "\n" e.text

/-- Property `dur`: duration of the entry, `outtime - intime`. -/
def SubtextEntry.dur (e : SubtextEntry) : ℚ := e.outtime - e.intime

/-- Method `SubtextEntry.move_by(offset)`: add the offset to both times. -/
def SubtextEntry.move_by (e : SubtextEntry) (offset : ℚ) : SubtextEntry :=
  { e with intime := e.intime + offset, outtime := e.outtime + offset }

/-- Method `SubtextEntry.move_to(pos)`: save `dur`, set `intime = pos`,
`outtime = pos + dur`. -/
def SubtextEntry.move_to (e : SubtextEntry) (pos : ℚ) : SubtextEntry :=
  { e with intime := pos, outtime := pos + e.dur }

/-- The `intime`/`outtime` property setters accept an int/float (stored
unchanged) or a string (converted by `to_secs`); any other type raises
`TypeError`.  The two representable input kinds form this tagged union. -/
inductive TimeInput where
  | num (q : ℚ)
  | str (s : String)

/-- The `intime` setter (src/subrip.py lines 99-106; the `outtime` setter
is identical): a numeric value is stored unchanged, a string goes through
`to_secs` (whose `ValueError` propagates, modelled as `none`). -/
def SubtextEntry.set_intime : TimeInput → Option ℚ
  | .num q => some q
  | .str s => to_secs s

/-! ## The parser (src/subrip.py lines 224-265)

The 0.9.3 and 0.9.5 revisions differ in the `rec#` state only in what they
do with a blank line: 0.9.3 skips it (`elif line:` guards the raise),
0.9.5 raises on it.  The embedding follows src/subrip.py (0.9.3); every
theorem below feeds the `rec#` state only non-blank lines, on which the
two revisions behave identically. -/

/-- Parse errors, carrying the line number `enumerate(buff)` produced. -/
inductive ParseErr where
  | IndexLineError (lineno : ℕ)
  | TimeLineError (lineno : ℕ)
deriving DecidableEq

/-- Match `\d+:\d+:\d+[,.]\d+` at the head of the input; return the matched
characters and the rest.  Each `\d+` is a maximal digit run (the regex is
deterministic: digits cannot cross the forced separators). -/
def timecodeChars (cs : List Char) : Option (List Char × List Char) :=
  let d1 := cs.takeWhile Char.isDigit
  match cs.dropWhile Char.isDigit with
  | ':' :: r2 =>
    let d2 := r2.takeWhile Char.isDigit
    match r2.dropWhile Char.isDigit with
    | ':' :: r4 =>
      let d3 := r4.takeWhile Char.isDigit
      match r4.dropWhile Char.isDigit with
      | c :: r6 =>
        let d4 := r6.takeWhile Char.isDigit
        if (c = ',' || c = '.') && !d1.isEmpty && !d2.isEmpty && !d3.isEmpty && !d4.isEmpty
        then some (d1 ++ ':' :: d2 ++ ':' :: d3 ++ c :: d4, r6.dropWhile Char.isDigit)
        else none
      | [] => none
    | _ => none
  | _ => none

/-- Match the full time line regex
`^(?P<intime>\d+:\d+:\d+[,.]\d+)\s+-->\s+(?P<outtime>\d+:\d+:\d+[,.]\d+)$`,
returning the two named groups. -/
def timelineMatch (cs : List Char) : Option (String × String) :=
  match timecodeChars cs with
  | none => none
  | some (tc1, r1) =>
    if (r1.takeWhile pyIsSpace).isEmpty then none
    else
      match r1.dropWhile pyIsSpace with
      | '-' :: '-' :: '>' :: r3 =>
        if (r3.takeWhile pyIsSpace).isEmpty then none
        else
          match timecodeChars (r3.dropWhile pyIsSpace) with
          | some (tc2, []) => some (⟨tc1⟩, ⟨tc2⟩)
          | _ => none
      | _ => none

/-- Assign the matched groups to the pending entry through the
`intime`/`outtime` setters (`to_secs` on the group text; the time line
language is a sub-language of the `to_secs` grammar, so the conversion
never fails and the `getD` default is dead). -/
def setTimes (e : SubtextEntry) (iStr oStr : String) : SubtextEntry :=
  { e with intime := (to_secs iStr).getD 0, outtime := (to_secs oStr).getD 0 }

/-- Parser state: `rec#` waiting for a record number; `time` waiting for a
timepoint with the freshly allocated entry; `text` accumulating content
lines for the pending entry.  (`curr` is non-None exactly in the latter
two states, and the `text` accumulator is empty outside the third, so both
live inside the state.) -/
inductive ParseState where
  | recNo
  | timeSt (curr : SubtextEntry)
  | textSt (curr : SubtextEntry) (text : List String)

/-- The parse loop of `SubtextLayer.parse` over `enumerate(buff)`, with the
appended-so-far entries accumulated on the right.  At end of input a
pending entry is finalized and appended (`if curr: ... self.append(curr)`). -/
def parseLines : ℕ → ParseState → List String → List SubtextEntry →
    Except ParseErr (List SubtextEntry)
  | _, .recNo, [], acc => .ok acc
  | _, .timeSt curr, [], acc => .ok (acc ++ [curr])
  | _, .textSt curr text, [], acc =>
    .ok (acc ++ [if text.isEmpty then curr else { curr with text := text }])
  | lineno, st, line :: rest, acc =>
    let l := pyStrip line.data
    match st with
    | .recNo =>
      if pyIsNumeric l then
        parseLines (lineno + 1) (.timeSt ⟨0, 0, []⟩) rest acc
      else if l.isEmpty then parseLines (lineno + 1) .recNo rest acc
      else .error (.IndexLineError lineno)
    | .timeSt curr =>
      match timelineMatch l with
      | some (iStr, oStr) =>
        parseLines (lineno + 1) (.textSt (setTimes curr iStr oStr) []) rest acc
      | none => .error (.TimeLineError lineno)
    | .textSt curr text =>
      if l.isEmpty then
        parseLines (lineno + 1) .recNo rest
          (acc ++ [if text.isEmpty then curr else { curr with text := text }])
      else parseLines (lineno + 1) (.textSt curr (text ++ [⟨l⟩])) rest acc

/-- Embeds `SubtextLayer.parse(buff)` on a buffer already split into lines,
starting with an empty layer. -/
def parse (buff : List String) : Except ParseErr (List SubtextEntry) :=
  parseLines 0 .recNo buff []

/-! ## SubtextLayer operations (src/subrip.py lines 151-291)

A `SubtextLayer` is a list of entries; the in-place mutating methods are
embedded as functions from the entry list to the new entry list. -/

namespace SubtextLayer

/-- Embeds `check()` (lines 163-172): scan consecutive pairs; both diagnoses for a
pair write dict key `no + 2`, so when an entry has nonpositive duration the
second write wins over "before or at previous entry".  Keys strictly
increase across iterations, so the dict is this association list. -/
def checkPairs : ℕ → List SubtextEntry → List (ℕ × String)
  | no, prev :: this :: rest =>
    (if this.dur ≤ 0 then [(no + 2, "duration <= 0")]
     else if this.intime ≤ prev.intime then [(no + 2, "before or at previous entry")]
     else [])
    ++ checkPairs (no + 1) (this :: rest)
  | _, _ => []

/-- Runs `check()` on a layer. -/
def check (l : List SubtextEntry) : List (ℕ × String) := checkPairs 0 l

/-- The overlap fix in `insert`: `if ref.outtime > intime: ref.outtime = intime`. -/
def clampOut (intime : ℚ) (e : SubtextEntry) : SubtextEntry :=
  if intime < e.outtime then { e with outtime := intime } else e

/-- The `for i, ref in enumerate(self): if ref.intime > intime: break`
loop of `insert`, with `super().insert(i, new)` and the overlap fix on
`ref`: place `new` before the first entry whose `intime` strictly exceeds
the new `intime`, clamping that entry; when the loop falls through without
a break, `i = len - 1` and `ref` is the last entry, so `new` lands
immediately before the last entry (which is clamped) — the same result as
a break on the last entry. -/
def insertLoop (intime : ℚ) (new : SubtextEntry) :
    List SubtextEntry → List SubtextEntry
  | [] => []
  | [ref] => [new, clampOut intime ref]
  | ref :: next :: rest =>
    if intime < ref.intime then new :: clampOut intime ref :: next :: rest
    else ref :: insertLoop intime new (next :: rest)

/-- Embeds `insert(intime, outtime, dur, text)` (lines 174-200): derive `outtime`
from `dur` when effectively unset, then append to an empty layer, append
after a strictly smaller last entry (clamping it on overlap), and otherwise
run the enumerate loop. -/
def insert (l : List SubtextEntry) (intime outtime dur : ℚ) (text : List String) :
    List SubtextEntry :=
  let outtime := if outtime < 1 / 1000 ∧ 1 / 1000 < dur then intime + dur else outtime
  let new : SubtextEntry := ⟨intime, outtime, text⟩
  match l.getLast? with
  | none => [new]
  | some lastE =>
    if lastE.intime < intime then l.dropLast ++ [clampOut intime lastE, new]
    else insertLoop intime new l

/-- Embeds `move_by(offset, start)` (lines 202-210): shift every entry whose
`intime >= start` by the offset. -/
def move_by (l : List SubtextEntry) (offset start : ℚ) : List SubtextEntry :=
  l.map fun sub => if start ≤ sub.intime then sub.move_by offset else sub

/-- Embeds `move_to(pos, start)` (lines 212-222): the loop binds `offset` from the
first entry with `intime >= start`; when none qualifies, `offset` is never
bound and evaluating it raises `UnboundLocalError` before `move_by` runs
(modelled as `none`: the failure reaches the caller and no entry changes). -/
def move_to (l : List SubtextEntry) (pos start : ℚ) : Option (List SubtextEntry) :=
  match l.find? fun sub => start ≤ sub.intime with
  | some sub => some (move_by l (pos - sub.intime) start)
  | none => none

/-- Embeds `sync(startpoint, endpoint)` (lines 279-291).  `first, *_, last = self`
raises `ValueError` below 2 entries; a zero original last `intime` raises
`ZeroDivisionError` in the first loop iteration (both modelled as `none`).
The first entry's new `outtime` is `startpoint + first.dur` computed after
`first.intime` was already overwritten, so it equals the original
`outtime`.  Every entry of `self[1:]` is rescaled against the last entry's
`intime`, which still holds its original value at each read. -/
def sync (l : List SubtextEntry) (startpoint endpoint : ℚ) :
    Option (List SubtextEntry) :=
  match l with
  | [] => none
  | first :: rest =>
    match rest.getLast? with
    | none => none
    | some lastE =>
      if lastE.intime = 0 then none
      else
        let firstA := { first with intime := startpoint }
        let firstB := { firstA with outtime := startpoint + firstA.dur }
        some (firstB :: rest.map fun sub =>
          let dur := sub.dur
          let ni := endpoint * sub.intime / lastE.intime
          { sub with intime := ni, outtime := ni + dur })

end SubtextLayer

end Srthandler

deriving instance DecidableEq for Except

set_option maxRecDepth 10000

namespace Srthandler

/-! ## Claim theorems -/

/-- C1: parsing the buffer with lines "1", "00:00:01,000 --> 00:00:02,000",
"Hello", a blank line, "2", "00:00:03,000 --> 00:00:04,000", "World" (no
trailing blank line) succeeds with exactly two entries: (1.0, 2.0, "Hello")
and (3.0, 4.0, "World"); the pending second entry at end of input is
finalized and appended rather than dropped. -/
theorem parse_two_entries_no_trailing_blank :
    parse ["1", "00:00:01,000 --> 00:00:02,000", "Hello", "",
           "2", "00:00:03,000 --> 00:00:04,000", "World"] =
      .ok [⟨1, 2, ["Hello"]⟩, ⟨3, 4, ["World"]⟩] ∧
    SubtextEntry.textStr ⟨1, 2, ["Hello"]⟩ = "Hello" ∧
    SubtextEntry.textStr ⟨3, 4, ["World"]⟩ = "World" := by
  exact ⟨by with_unfolding_all decide, by decide, by decide⟩

/-- C2: evidence of the sync bug.  On the 3-entry layer with times
(1,2), (4,5), (8,9), `sync(0, 10)` scales the later entries exactly as the
claim says (scale factor 10/8 on original inTimes, outTime = new inTime +
original duration, last inTime forced to 10), but the first entry keeps its
original outTime 2 — `first.dur` is read only after `first.intime` was
overwritten — so its duration becomes 2 instead of the original 1: the
claimed duration preservation fails. -/
theorem sync_first_entry_duration_changes :
    SubtextLayer.sync [⟨1, 2, ["a"]⟩, ⟨4, 5, ["b"]⟩, ⟨8, 9, ["c"]⟩] 0 10 =
      some [⟨0, 2, ["a"]⟩, ⟨5, 6, ["b"]⟩, ⟨10, 11, ["c"]⟩] ∧
    SubtextEntry.dur ⟨0, 2, ["a"]⟩ = 2 ∧
    SubtextEntry.dur ⟨1, 2, ["a"]⟩ = 1 := by
  exact ⟨by with_unfolding_all decide, by with_unfolding_all decide,
    by with_unfolding_all decide⟩

/-- C3: the 0.9.3 `to_timestr` returns exactly the claimed strings, but the
0.9.5 rewrite shipped in the srthandler package raises `ValueError` on the
float input 3723.456 (`:02d` applied to a float), and even on an int input
leaks a literal ":02d" into the minutes field instead of zero-padding. -/
theorem to_timestr_v093_formats_v095_fails :
    to_timestr (3723456 / 1000) = "01:02:03,456" ∧
    to_timestr 5 = "00:00:05,000" ∧
    to_timestr_v095 (.float (3723456 / 1000)) = none ∧
    to_timestr_v095 (.int 3723) = some "01:2:02d:03,000" := by
  exact ⟨by with_unfolding_all decide, by with_unfolding_all decide,
    by with_unfolding_all decide, by with_unfolding_all decide⟩

/-- C5 (amended): when the parser rejects a line, the raised
`IndexLineError` or `TimeLineError` carries the 0-based line number that
`enumerate(buff)` produced for the offending line (callers such as the
srtmanip CLI add 1 for display): whatever the enumerate counter reads when
the `rec#` state rejects a non-blank non-numeric line, or when the `time`
state rejects a line that misses the time line regex, that exact counter
value is the error's payload.  In particular a buffer whose first line is
"abc" fails with `IndexLineError` carrying 0, and the buffer "1", "abc"
fails with `TimeLineError` carrying 1.  Both parser revisions reject these
lines identically with the same payload (the revisions differ only on a
blank line in the `rec#` state, which no hypothesis here admits). -/
theorem parse_error_zero_based :
    (∀ (lineno : ℕ) (acc : List SubtextEntry) (line : String)
        (rest : List String),
      pyIsNumeric (pyStrip line.data) = false → pyStrip line.data ≠ [] →
      parseLines lineno .recNo (line :: rest) acc =
        .error (.IndexLineError lineno)) ∧
    (∀ (lineno : ℕ) (acc : List SubtextEntry) (curr : SubtextEntry)
        (line : String) (rest : List String),
      timelineMatch (pyStrip line.data) = none →
      parseLines lineno (.timeSt curr) (line :: rest) acc =
        .error (.TimeLineError lineno)) ∧
    parse ["abc"] = .error (.IndexLineError 0) ∧
    parse ["1", "abc"] = .error (.TimeLineError 1) := by
  refine ⟨?_, ?_, by decide, by decide⟩
  · intro lineno acc line rest hnum hne
    simp only [parseLines, hnum, Bool.false_eq_true, if_false]
    rw [if_neg (by simpa [List.isEmpty_iff] using hne)]
  · intro lineno acc curr line rest hm
    simp only [parseLines, hm]

/-- Witness for the amended C5 theorem: both rejection sites applied at
concrete lines with nonzero enumerate counters, the payload matching the
counter each time. -/
theorem parse_error_zero_based_witness :
    pyIsNumeric (pyStrip "abc".data) = false ∧
    pyStrip "abc".data ≠ [] ∧
    parseLines 5 .recNo ["abc"] [] = .error (.IndexLineError 5) ∧
    timelineMatch (pyStrip "oops".data) = none ∧
    parseLines 7 (.timeSt ⟨0, 0, []⟩) ["oops"] [] = .error (.TimeLineError 7) :=
  ⟨by decide, by decide,
    parse_error_zero_based.1 5 [] "abc" [] (by decide) (by decide),
    by decide,
    parse_error_zero_based.2.1 7 [] ⟨0, 0, []⟩ "oops" [] (by decide)⟩

/-- C5 counterexample: parsing the buffer whose first (non-blank) line is
"abc" fails with `IndexLineError` carrying 0, not the claimed 1. -/
theorem parse_abc_error_carries_zero :
    parse ["abc"] = .error (.IndexLineError 0) ∧
    parse ["abc"] ≠ .error (.IndexLineError 1) := by
  exact ⟨by decide, by decide⟩

/-- C6: when no entry satisfies `intime >= start`, `move_to` fails before
any entry is touched (the unassigned `offset` raises `UnboundLocalError`
before `move_by` runs), surfacing the anchor-not-found failure to the
caller instead of silently returning. -/
theorem move_to_without_anchor_fails (l : List SubtextEntry) (pos start : ℚ)
    (h : ∀ e ∈ l, e.intime < start) :
    SubtextLayer.move_to l pos start = none := by
  unfold SubtextLayer.move_to
  have hf : l.find? (fun sub => start ≤ sub.intime) = none := by
    rw [List.find?_eq_none]
    intro x hx
    simpa [not_le] using h x hx
  rw [hf]

/-- Witness for C6 at a concrete input: the 1-entry layer with inTime 1 and
`start = 3` has no anchor, and `move_to` returns the failure. -/
theorem move_to_without_anchor_fails_witness :
    (∀ e ∈ [(⟨1, 2, ["a"]⟩ : SubtextEntry)], e.intime < 3) ∧
    SubtextLayer.move_to [⟨1, 2, ["a"]⟩] 5 3 = none := by
  refine ⟨by with_unfolding_all decide, ?_⟩
  exact move_to_without_anchor_fails [⟨1, 2, ["a"]⟩] 5 3
    (by with_unfolding_all decide)

/-- C7 counterexample: in the layer with inTimes 0 and 2, inserting an
entry with inTime 2 has no existing entry with inTime strictly above 2, yet
the new entry is not appended at the end: it lands immediately before the
last entry (whose outTime is also clamped to 2). -/
theorem insert_equal_intime_not_appended :
    SubtextLayer.insert [⟨0, 2, ["a"]⟩, ⟨2, 3, ["b"]⟩] 2 3 0 ["n"] =
      [⟨0, 2, ["a"]⟩, ⟨2, 3, ["n"]⟩, ⟨2, 2, ["b"]⟩] ∧
    (∀ e ∈ [⟨0, 2, ["a"]⟩, (⟨2, 3, ["b"]⟩ : SubtextEntry)], ¬ (2 : ℚ) < e.intime) ∧
    (SubtextLayer.insert [⟨0, 2, ["a"]⟩, ⟨2, 3, ["b"]⟩] 2 3 0 ["n"]).getLast? ≠
      some ⟨2, 3, ["n"]⟩ := by
  exact ⟨by with_unfolding_all decide, by with_unfolding_all decide,
    by with_unfolding_all decide⟩

/-- C8: the bulk time operations preserve the entry count, the storage
order and every entry's text whenever they succeed: position `i` of the
result holds an entry with the text of position `i` of the input, for
`move_by` always, and for `move_to`/`sync` whenever their preconditions
hold (a result is produced at all).  Only `intime`/`outtime` change. -/
theorem bulk_ops_preserve_count_order_text (l : List SubtextEntry)
    (offset start pos sp ep : ℚ) :
    ((SubtextLayer.move_by l offset start).length = l.length ∧
      ∀ i : ℕ, (SubtextLayer.move_by l offset start)[i]?.map SubtextEntry.text =
        l[i]?.map SubtextEntry.text) ∧
    (∀ r, SubtextLayer.move_to l pos start = some r →
      r.length = l.length ∧
      ∀ i : ℕ, r[i]?.map SubtextEntry.text = l[i]?.map SubtextEntry.text) ∧
    (∀ r, SubtextLayer.sync l sp ep = some r →
      r.length = l.length ∧
      ∀ i : ℕ, r[i]?.map SubtextEntry.text = l[i]?.map SubtextEntry.text) := by
  have hmb : ∀ off st : ℚ, (SubtextLayer.move_by l off st).length = l.length ∧
      ∀ i : ℕ, (SubtextLayer.move_by l off st)[i]?.map SubtextEntry.text =
        l[i]?.map SubtextEntry.text := by
    intro off st
    constructor
    · simp [SubtextLayer.move_by]
    · intro i
      simp only [SubtextLayer.move_by, List.getElem?_map]
      cases l[i]? with
      | none => rfl
      | some e =>
        by_cases h : st ≤ e.intime <;> simp [h, SubtextEntry.move_by]
  refine ⟨hmb offset start, ?_, ?_⟩
  · intro r hr
    unfold SubtextLayer.move_to at hr
    split at hr
    · cases hr
      exact hmb _ _
    · cases hr
  · intro r hr
    unfold SubtextLayer.sync at hr
    split at hr
    · cases hr
    · rename_i first rest
      split at hr
      · cases hr
      · rename_i lastE hlast
        split at hr
        · cases hr
        · simp only [Option.some_inj] at hr
          subst hr
          constructor
          · simp
          · intro i
            cases i with
            | zero => simp
            | succ j =>
              simp only [List.getElem?_cons_succ, List.getElem?_map]
              cases rest[j]? with
              | none => rfl
              | some e => rfl

/-- Witness for C8 at a concrete input: sync on a 2-entry layer produces a
layer of the same length whose first entry keeps its text. -/
theorem bulk_ops_preserve_count_order_text_witness :
    SubtextLayer.sync [⟨1, 2, ["a"]⟩, ⟨4, 5, ["b"]⟩] 0 10 =
      some [⟨0, 2, ["a"]⟩, ⟨10, 11, ["b"]⟩] ∧
    ([(⟨0, 2, ["a"]⟩ : SubtextEntry), ⟨10, 11, ["b"]⟩].length =
      [(⟨1, 2, ["a"]⟩ : SubtextEntry), ⟨4, 5, ["b"]⟩].length) ∧
    [(⟨0, 2, ["a"]⟩ : SubtextEntry), ⟨10, 11, ["b"]⟩][0]?.map SubtextEntry.text =
      [(⟨1, 2, ["a"]⟩ : SubtextEntry), ⟨4, 5, ["b"]⟩][0]?.map SubtextEntry.text := by
  have hs : SubtextLayer.sync [⟨1, 2, ["a"]⟩, ⟨4, 5, ["b"]⟩] 0 10 =
      some [⟨0, 2, ["a"]⟩, ⟨10, 11, ["b"]⟩] := by with_unfolding_all decide
  have h := (bulk_ops_preserve_count_order_text
    [⟨1, 2, ["a"]⟩, ⟨4, 5, ["b"]⟩] 0 0 0 0 10).2.2
    [⟨0, 2, ["a"]⟩, ⟨10, 11, ["b"]⟩] hs
  exact ⟨hs, h.1, h.2 0⟩


/-- Helper for C10: every key produced by the pair scan starting at counter
`no` is at least `no + 2`. -/
theorem checkPairs_keys (l : List SubtextEntry) (no k : ℕ) (msg : String)
    (h : (k, msg) ∈ SubtextLayer.checkPairs no l) : no + 2 ≤ k := by
  induction l generalizing no with
  | nil => simp [SubtextLayer.checkPairs] at h
  | cons prev tl ih =>
    cases tl with
    | nil => simp [SubtextLayer.checkPairs] at h
    | cons cur rest =>
      rw [SubtextLayer.checkPairs] at h
      rcases List.mem_append.mp h with h1 | h2
      · split at h1
        · simp at h1
          omega
        · split at h1 <;> simp at h1
          omega
      · have := ih (no + 1) h2
        omega

/-- C10: every key in the mapping returned by `check()` is at least 2: the
first entry is never the subject of a diagnosis, and in particular a first
entry with nonpositive duration (here (5, 1), duration -4) goes unreported
when the consecutive pair raises no issue. -/
theorem check_keys_at_least_two (l : List SubtextEntry) :
    (∀ k msg, (k, msg) ∈ SubtextLayer.check l → 2 ≤ k) ∧
    SubtextLayer.check [⟨5, 1, ["x"]⟩, ⟨6, 7, ["y"]⟩] = [] := by
  constructor
  · intro k msg h
    simpa using checkPairs_keys l 0 k msg h
  · with_unfolding_all decide

/-- Witness for C10 at a concrete layer: the key 2 reported for a
second entry with nonpositive duration satisfies 2 ≤ 2. -/
theorem check_keys_at_least_two_witness :
    ((2, "duration <= 0") ∈
      SubtextLayer.check [⟨0, 1, ["x"]⟩, ⟨0, 0, ["y"]⟩]) ∧ 2 ≤ 2 :=
  ⟨by with_unfolding_all decide,
    (check_keys_at_least_two [⟨0, 1, ["x"]⟩, ⟨0, 0, ["y"]⟩]).1 2 "duration <= 0"
      (by with_unfolding_all decide)⟩


/-- Helper for C7: the overlap clamp changes only the outTime. -/
theorem clampOut_intime (t : ℚ) (e : Srthandler.SubtextEntry) :
    (Srthandler.SubtextLayer.clampOut t e).intime = e.intime := by
  unfold Srthandler.SubtextLayer.clampOut
  split <;> rfl

/-- Helper for C7: a break on the head of the loop places the new entry
right there, clamping the head. -/
theorem insertLoop_break (intime : ℚ) (new a : SubtextEntry)
    (t : List SubtextEntry) (h : intime < a.intime) :
    SubtextLayer.insertLoop intime new (a :: t) =
      new :: SubtextLayer.clampOut intime a :: t := by
  cases t <;> simp [SubtextLayer.insertLoop, h]

/-- Helper for C7: no break on the head keeps it and continues the loop. -/
theorem insertLoop_skip (intime : ℚ) (new a : SubtextEntry)
    (t : List SubtextEntry) (h : ¬ intime < a.intime) (ht : t ≠ []) :
    SubtextLayer.insertLoop intime new (a :: t) =
      a :: SubtextLayer.insertLoop intime new t := by
  cases t with
  | nil => exact absurd rfl ht
  | cons x xs => simp [SubtextLayer.insertLoop, h]

/-- Helper for C7: when a first strictly-exceeding entry exists (all
entries before it at most the new inTime), the new entry lands immediately
before it. -/
theorem insertLoop_at_first_exceeding (intime : ℚ) (new : SubtextEntry)
    (l1 : List SubtextEntry) (ref : SubtextEntry) (l2 : List SubtextEntry)
    (h1 : ∀ e ∈ l1, e.intime ≤ intime) (href : intime < ref.intime) :
    SubtextLayer.insertLoop intime new (l1 ++ ref :: l2) =
      l1 ++ new :: SubtextLayer.clampOut intime ref :: l2 := by
  induction l1 with
  | nil => simpa using insertLoop_break intime new ref l2 href
  | cons a as ih =>
    have ha : ¬ intime < a.intime := not_lt.mpr (h1 a (by simp))
    rw [List.cons_append,
      insertLoop_skip intime new a (as ++ ref :: l2) ha (by simp),
      ih fun e he => h1 e (by simp [he])]
    simp

/-- Helper for C7: when no entry's inTime strictly exceeds the new inTime,
the loop falls through and the new entry lands immediately before the last
entry, which is clamped. -/
theorem insertLoop_fallthrough (intime : ℚ) (new : SubtextEntry)
    (l : List SubtextEntry) (lastE : SubtextEntry)
    (hlast : l.getLast? = some lastE)
    (h : ∀ e ∈ l, e.intime ≤ intime) :
    SubtextLayer.insertLoop intime new l =
      l.dropLast ++ [new, SubtextLayer.clampOut intime lastE] := by
  induction l with
  | nil => simp at hlast
  | cons a t ih =>
    cases t with
    | nil =>
      simp only [List.getLast?_singleton, Option.some_inj] at hlast
      subst hlast
      simp [SubtextLayer.insertLoop]
    | cons x xs =>
      have ha : ¬ intime < a.intime := not_lt.mpr (h a (by simp))
      rw [insertLoop_skip intime new a (x :: xs) ha (by simp),
        ih (by simpa using hlast) fun e he => h e (by simp [he])]
      simp

/-- Helper for C7: every entry in the loop result carries either the new
inTime or the inTime of an input entry (the clamp touches only outTimes). -/
theorem insertLoop_mem_intime (intime : ℚ) (new : SubtextEntry)
    (l : List SubtextEntry) :
    ∀ x ∈ SubtextLayer.insertLoop intime new l,
      x.intime = new.intime ∨ ∃ y ∈ l, x.intime = y.intime := by
  induction l with
  | nil => simp [SubtextLayer.insertLoop]
  | cons a t ih =>
    intro x hx
    cases t with
    | nil =>
      simp only [SubtextLayer.insertLoop, List.mem_cons, List.not_mem_nil,
        or_false] at hx
      rcases hx with rfl | rfl
      · exact Or.inl rfl
      · exact Or.inr ⟨a, by simp, clampOut_intime intime a⟩
    | cons b bs =>
      by_cases hb : intime < a.intime
      · rw [insertLoop_break intime new a (b :: bs) hb] at hx
        rcases List.mem_cons.mp hx with rfl | hx2
        · exact Or.inl rfl
        · rcases List.mem_cons.mp hx2 with rfl | hx3
          · exact Or.inr ⟨a, by simp, clampOut_intime intime a⟩
          · exact Or.inr ⟨x, by simp [hx3], rfl⟩
      · rw [insertLoop_skip intime new a (b :: bs) hb (by simp)] at hx
        rcases List.mem_cons.mp hx with rfl | hx2
        · exact Or.inr ⟨x, by simp, rfl⟩
        · rcases ih x hx2 with h1 | ⟨y, hy, hxy⟩
          · exact Or.inl h1
          · exact Or.inr ⟨y, by simp [hy], hxy⟩

/-- Helper for C7: the loop preserves ascending-inTime order when the new
inTime does not exceed the last entry's inTime (the fall-through branch is
only reached under that side condition). -/
theorem insertLoop_pairwise (intime : ℚ) (new : SubtextEntry)
    (hnew : new.intime = intime) (l : List SubtextEntry)
    (hs : l.Pairwise fun a b => a.intime ≤ b.intime)
    (hlast : ∀ lastE, l.getLast? = some lastE → intime ≤ lastE.intime) :
    (SubtextLayer.insertLoop intime new l).Pairwise
      fun a b => a.intime ≤ b.intime := by
  induction l with
  | nil => simp [SubtextLayer.insertLoop]
  | cons a t ih =>
    cases t with
    | nil =>
      have hi : intime ≤ a.intime := hlast a (by simp)
      simp [SubtextLayer.insertLoop, clampOut_intime, hnew, hi]
    | cons b bs =>
      rcases List.pairwise_cons.mp hs with ⟨hale, hrest⟩
      by_cases hb : intime < a.intime
      · rw [insertLoop_break intime new a (b :: bs) hb]
        refine List.Pairwise.cons ?_ (List.Pairwise.cons ?_ hrest)
        · intro x hx
          rcases List.mem_cons.mp hx with rfl | hx2
          · rw [hnew, clampOut_intime]
            linarith
          · have := hale x hx2
            rw [hnew]
            linarith
        · intro x hx
          rw [clampOut_intime]
          exact hale x hx
      · rw [insertLoop_skip intime new a (b :: bs) hb (by simp)]
        refine List.Pairwise.cons ?_ ?_
        · intro x hx
          rcases insertLoop_mem_intime intime new (b :: bs) x hx with h1 | ⟨y, hy, hxy⟩
          · rw [h1, hnew]
            linarith
          · rw [hxy]
            exact hale y hy
        · exact ih hrest fun lastE he => hlast lastE (by simpa using he)

/-- C7 (amended): writing `new` for the entry built by `insert`, the new
entry is placed immediately before the first existing entry whose inTime
strictly exceeds the new inTime whenever the last entry's inTime is not
strictly below the new inTime; it is appended at the end when the
collection is empty or when the last entry's inTime is strictly below the
new inTime; but when no entry's inTime strictly exceeds the new inTime and
the collection is nonempty with last inTime at least the new inTime, the
new entry is inserted immediately before the last entry, not appended.  In
every case ascending-inTime order is preserved (the overlap fix touches
only outTimes). -/
theorem insert_placement (l : List SubtextEntry) (intime outtime dur : ℚ)
    (text : List String) :
    (SubtextLayer.insert [] intime outtime dur text =
      [⟨intime, if outtime < 1 / 1000 ∧ 1 / 1000 < dur then intime + dur
                else outtime, text⟩]) ∧
    (∀ lastE, l.getLast? = some lastE → lastE.intime < intime →
      SubtextLayer.insert l intime outtime dur text =
        l.dropLast ++ [SubtextLayer.clampOut intime lastE,
          ⟨intime, if outtime < 1 / 1000 ∧ 1 / 1000 < dur then intime + dur
                   else outtime, text⟩]) ∧
    (∀ lastE, l.getLast? = some lastE → ¬ lastE.intime < intime →
      (∀ l1 ref l2, l = l1 ++ ref :: l2 → (∀ e ∈ l1, e.intime ≤ intime) →
        intime < ref.intime →
        SubtextLayer.insert l intime outtime dur text =
          l1 ++ ⟨intime, if outtime < 1 / 1000 ∧ 1 / 1000 < dur then intime + dur
                         else outtime, text⟩ ::
            SubtextLayer.clampOut intime ref :: l2) ∧
      ((∀ e ∈ l, e.intime ≤ intime) →
        SubtextLayer.insert l intime outtime dur text =
          l.dropLast ++ [⟨intime, if outtime < 1 / 1000 ∧ 1 / 1000 < dur
                                  then intime + dur else outtime, text⟩,
            SubtextLayer.clampOut intime lastE])) ∧
    (l.Pairwise (fun a b => a.intime ≤ b.intime) →
      (SubtextLayer.insert l intime outtime dur text).Pairwise
        fun a b => a.intime ≤ b.intime) := by
  refine ⟨rfl, ?_, ?_, ?_⟩
  · intro lastE hlast hlt
    simp only [SubtextLayer.insert, hlast]
    rw [if_pos hlt]
  · intro lastE hlast hnlt
    constructor
    · intro l1 ref l2 hdec h1 href
      simp only [SubtextLayer.insert, hlast]
      rw [if_neg hnlt, hdec]
      exact insertLoop_at_first_exceeding intime _ l1 ref l2 h1 href
    · intro hall
      simp only [SubtextLayer.insert, hlast]
      rw [if_neg hnlt]
      exact insertLoop_fallthrough intime _ l lastE hlast hall
  · intro hs
    cases hlast : l.getLast? with
    | none => simp [SubtextLayer.insert, hlast]
    | some lastE =>
      simp only [SubtextLayer.insert, hlast]
      by_cases hlt : lastE.intime < intime
      · rw [if_pos hlt]
        have hdec := List.dropLast_append_getLast? lastE hlast
        have hall : ∀ x ∈ l.dropLast, x.intime ≤ lastE.intime := by
          intro x hx
          have hsd : (l.dropLast ++ [lastE]).Pairwise
              (fun a b => a.intime ≤ b.intime) := by
            rw [hdec]
            exact hs
          rcases (List.pairwise_append.mp hsd) with ⟨_, _, hcross⟩
          exact hcross x hx lastE (by simp)
        rw [List.pairwise_append]
        refine ⟨?_, ?_, ?_⟩
        · exact hs.sublist (List.dropLast_sublist l)
        · simp [clampOut_intime]
          linarith
        · intro x hx y hy
          rcases List.mem_cons.mp hy with rfl | hy2
          · rw [clampOut_intime]
            exact hall x hx
          · have hy3 : y = ⟨intime, if outtime < 1 / 1000 ∧ 1 / 1000 < dur
                then intime + dur else outtime, text⟩ := by simpa using hy2
            subst hy3
            show x.intime ≤ intime
            have := hall x hx
            linarith
      · rw [if_neg hlt]
        exact insertLoop_pairwise intime _ rfl l hs
          fun lE he => by
            rw [hlast] at he
            cases he
            exact not_lt.mp hlt

/-- Witness for C7's amended theorem at a concrete input: a new entry with
inTime 3 after a last entry with inTime 0 is appended at the end. -/
theorem insert_placement_witness :
    ([(⟨0, 2, ["a"]⟩ : SubtextEntry)].getLast? = some ⟨0, 2, ["a"]⟩) ∧
    SubtextEntry.intime ⟨0, 2, ["a"]⟩ < 3 ∧
    SubtextLayer.insert [⟨0, 2, ["a"]⟩] 3 4 0 ["n"] =
      [(⟨0, 2, ["a"]⟩ : SubtextEntry)].dropLast ++
        [SubtextLayer.clampOut 3 ⟨0, 2, ["a"]⟩,
         ⟨3, if (4 : ℚ) < 1 / 1000 ∧ (1 : ℚ) / 1000 < 0 then 3 + 0 else 4, ["n"]⟩] := by
  refine ⟨rfl, by with_unfolding_all decide, ?_⟩
  exact (insert_placement [⟨0, 2, ["a"]⟩] 3 4 0 ["n"]).2.1 ⟨0, 2, ["a"]⟩ rfl
    (by with_unfolding_all decide)

/-- Helper: decimal rendering of a natural number is never empty. -/
theorem natToChars_ne_nil (n : ℕ) : natToChars n ≠ [] := by
  rw [natToChars]
  split
  · simp
  · simp

/-- Helper: decimal rendering emits only digit characters. -/
theorem natToChars_all_digit (n : ℕ) : ∀ c ∈ natToChars n, c.isDigit = true := by
  induction n using Nat.strong_induction_on with
  | _ n ih =>
    rw [natToChars]
    split
    · rename_i h
      intro c hc
      interval_cases n <;> simp_all
    · rename_i h
      intro c hc
      rcases List.mem_append.mp hc with h1 | h2
      · exact ih (n / 10) (Nat.div_lt_self (by omega) (by omega)) c h1
      · have : c = Char.ofNat (48 + n % 10) := by simpa using h2
        subst this
        have h10 : n % 10 < 10 := Nat.mod_lt _ (by omega)
        interval_cases hm : n % 10 <;> simp_all

/-- Helper: the numeric value of an appended digit. -/
theorem digitsVal_append_singleton (A : List Char) (c : Char) :
    digitsVal (A ++ [c]) = 10 * digitsVal A + digitVal c := by
  simp [digitsVal, List.foldl_append]

/-- Helper: decimal rendering round-trips through the digit evaluator. -/
theorem digitsVal_natToChars (n : ℕ) : digitsVal (natToChars n) = n := by
  induction n using Nat.strong_induction_on with
  | _ n ih =>
    rw [natToChars]
    split
    · rename_i h
      interval_cases n <;> decide
    · rename_i h
      rw [digitsVal_append_singleton, ih (n / 10) (Nat.div_lt_self (by omega) (by omega))]
      have h10 : n % 10 < 10 := Nat.mod_lt _ (by omega)
      have : digitVal (Char.ofNat (48 + n % 10)) = n % 10 := by
        interval_cases hm : n % 10 <;> decide
      rw [this]
      omega

/-- Helper: a leading zero does not change the numeric value. -/
theorem digitsVal_replicate_zero (k : ℕ) (A : List Char) :
    digitsVal (List.replicate k '0' ++ A) = digitsVal A := by
  induction k with
  | zero => simp
  | succ m ih =>
    have : List.replicate (m + 1) '0' ++ A = '0' :: (List.replicate m '0' ++ A) := by
      simp [List.replicate_succ]
    rw [this]
    simpa [digitsVal, digitVal] using ih

/-- Helper: zero left-padding does not change the numeric value. -/
theorem digitsVal_leftPad (w : ℕ) (A : List Char) :
    digitsVal (leftPad '0' w A) = digitsVal A :=
  digitsVal_replicate_zero (w - A.length) A

/-- Helper: zero left-padding keeps all characters digits. -/
theorem leftPad_all_digit (w : ℕ) (A : List Char)
    (h : ∀ c ∈ A, c.isDigit = true) :
    ∀ c ∈ leftPad '0' w A, c.isDigit = true := by
  intro c hc
  rcases List.mem_append.mp hc with h1 | h2
  · have : c = '0' := List.eq_of_mem_replicate h1
    subst this
    rfl
  · exact h c h2

/-- Helper: left-padding a nonempty list stays nonempty. -/
theorem leftPad_ne_nil (c : Char) (w : ℕ) (A : List Char) (h : A ≠ []) :
    leftPad c w A ≠ [] := by
  unfold leftPad
  simp [h]

/-- Helper: the length of a left-padded list is the larger of the width
and the original length. -/
theorem leftPad_length (c : Char) (w : ℕ) (A : List Char) :
    (leftPad c w A).length = max w A.length := by
  unfold leftPad
  simp
  omega

/-- Helper: a number below a power of ten needs no more digits than the
exponent. -/
theorem natToChars_length_le (k : ℕ) (hk : 1 ≤ k) :
    ∀ n : ℕ, n < 10 ^ k → (natToChars n).length ≤ k := by
  induction k with
  | zero => omega
  | succ m ih =>
    intro n hn
    rw [natToChars]
    split
    · simp
    · rename_i h
      have hm1 : 1 ≤ m := by
        by_contra hm
        have : m = 0 := by omega
        subst this
        simp at hn
        omega
      have : (natToChars (n / 10)).length ≤ m := by
        apply ih hm1
        have : 10 ^ (m + 1) = 10 ^ m * 10 := by ring
        omega
      simp [List.length_append]
      omega

/-- Helper: `takeWhile` collects exactly a satisfying block stopped by a
failing element. -/
theorem takeWhile_append_of_not (p : Char → Bool) (A : List Char) (b : Char)
    (C : List Char) (hA : ∀ a ∈ A, p a = true) (hb : p b = false) :
    (A ++ b :: C).takeWhile p = A := by
  induction A with
  | nil => simp [List.takeWhile, hb]
  | cons a as ih =>
    have := hA a (by simp)
    simp only [List.cons_append, List.takeWhile_cons, this, if_true]
    rw [ih fun x hx => hA x (by simp [hx])]

/-- Helper: `dropWhile` leaves the failing element and the tail. -/
theorem dropWhile_append_of_not (p : Char → Bool) (A : List Char) (b : Char)
    (C : List Char) (hA : ∀ a ∈ A, p a = true) (hb : p b = false) :
    (A ++ b :: C).dropWhile p = b :: C := by
  induction A with
  | nil => simp [List.dropWhile, hb]
  | cons a as ih =>
    have := hA a (by simp)
    simp only [List.cons_append, List.dropWhile_cons, this, if_true]
    exact ih fun x hx => hA x (by simp [hx])

/-- Helper: a digit character is not a separator. -/
theorem digit_not_colon {c : Char} (h : c.isDigit = true) : (c = ':') = False := by
  simp only [eq_iff_iff, iff_false]
  intro hc
  subst hc
  simp [Char.isDigit] at h

/-- Helper: `to_secs` on a fully-qualified timecode made of four digit
blocks evaluates to the denoted number of seconds. -/
theorem to_secs_canonical (D1 D2 D3 D4 : List Char)
    (h1 : D1 ≠ []) (h2 : D2 ≠ []) (h3 : D3 ≠ [])
    (g1 : ∀ c ∈ D1, c.isDigit = true) (g2 : ∀ c ∈ D2, c.isDigit = true)
    (g3 : ∀ c ∈ D3, c.isDigit = true) (g4 : ∀ c ∈ D4, c.isDigit = true) :
    to_secs ⟨D1 ++ ':' :: (D2 ++ ':' :: (D3 ++ ',' :: D4))⟩ =
      some ((digitsVal D1 : ℚ) * 3600 + (digitsVal D2 : ℚ) * 60 +
        ((digitsVal D3 : ℚ) + (digitsVal D4 : ℚ) / 10 ^ D4.length)) := by
  have hcolon : (':' : Char).isDigit = false := by decide
  have hcomma : (',' : Char).isDigit = false := by decide
  obtain ⟨d, ds, rfl⟩ : ∃ d ds, D1 = d :: ds := by
    cases D1 with
    | nil => exact absurd rfl h1
    | cons d ds => exact ⟨d, ds, rfl⟩
  have hd : d.isDigit = true := g1 d (by simp)
  have hdm : (d = '-') = False := by
    simp only [eq_iff_iff, iff_false]
    intro hc
    subst hc
    simp [Char.isDigit] at hd
  unfold to_secs
  rw [if_neg (by simp [hdm])]
  have hg1 : colonGroup ((d :: ds) ++ ':' :: (D2 ++ ':' :: (D3 ++ ',' :: D4))) =
      (some (d :: ds), D2 ++ ':' :: (D3 ++ ',' :: D4)) := by
    unfold colonGroup
    rw [takeWhile_append_of_not Char.isDigit _ ':' _ g1 hcolon,
      dropWhile_append_of_not Char.isDigit _ ':' _ g1 hcolon]
    simp
  have hg2 : colonGroup (D2 ++ ':' :: (D3 ++ ',' :: D4)) =
      (some D2, D3 ++ ',' :: D4) := by
    unfold colonGroup
    rw [takeWhile_append_of_not Char.isDigit _ ':' _ g2 hcolon,
      dropWhile_append_of_not Char.isDigit _ ':' _ g2 hcolon]
    simp [List.isEmpty_iff, h2]
  have hg3 : secsVal (D3 ++ ',' :: D4) =
      some ((digitsVal D3 : ℚ) + (digitsVal D4 : ℚ) / 10 ^ D4.length) := by
    unfold secsVal
    rw [takeWhile_append_of_not Char.isDigit _ ',' _ g3 hcomma,
      dropWhile_append_of_not Char.isDigit _ ',' _ g3 hcomma]
    rw [if_neg (by simp [List.isEmpty_iff, h3])]
    have : ∀ c ∈ D4, c.isDigit := g4
    simp [List.all_eq_true.mpr g4]
  have htp : timepointGroups (d :: ds ++ ':' :: (D2 ++ ':' :: (D3 ++ ',' :: D4))) =
      some (some (digitsVal (d :: ds)), some (digitsVal D2),
        (digitsVal D3 : ℚ) + (digitsVal D4 : ℚ) / 10 ^ D4.length) := by
    simp only [timepointGroups, hg1, hg2, hg3]
    simp
  have hloop : to_secs_loop 3 (d :: ds ++ ':' :: (D2 ++ ':' :: (D3 ++ ',' :: D4))) =
      some ((digitsVal (d :: ds) : ℚ) * 3600 + (digitsVal D2 : ℚ) * 60 +
        ((digitsVal D3 : ℚ) + (digitsVal D4 : ℚ) / 10 ^ D4.length)) := by
    rw [show (3 : ℕ) = 2 + 1 by rfl]
    rw [to_secs_loop]
    rw [htp]
  show (to_secs_loop 3 _).map _ = _
  simp only [String.data]
  rw [hloop]
  simp

/-- Helper: Python's float mod with a positive divisor is nonnegative. -/
theorem pyMod_nonneg (x y : ℚ) (hy : 0 < y) : 0 ≤ pyMod x y := by
  unfold pyMod
  have h1 : (⌊x / y⌋ : ℚ) ≤ x / y := Int.floor_le _
  have h2 : (⌊x / y⌋ : ℚ) * y ≤ x := (le_div_iff₀ hy).mp h1
  linarith [h2, mul_comm (⌊x / y⌋ : ℚ) y]

/-- Helper: Python's float mod stays below a positive divisor. -/
theorem pyMod_lt (x y : ℚ) (hy : 0 < y) : pyMod x y < y := by
  unfold pyMod
  have h1 : x / y < (⌊x / y⌋ : ℚ) + 1 := Int.lt_floor_add_one _
  have h2 : x < ((⌊x / y⌋ : ℚ) + 1) * y := (div_lt_iff₀ hy).mp h1
  have h3 : ((⌊x / y⌋ : ℚ) + 1) * y = y * ⌊x / y⌋ + y := by ring
  linarith

/-- Helper: the mod identity `x = y * floor(x / y) + (x mod y)`. -/
theorem pyMod_decomp (x y : ℚ) : x = y * ⌊x / y⌋ + pyMod x y := by
  unfold pyMod
  ring

/-- Helper: `int()` truncation agrees with the floor on nonnegative
values. -/
theorem pyInt_of_nonneg (q : ℚ) (h : 0 ≤ q) : pyInt q = ⌊q⌋ := by
  unfold pyInt
  rw [if_neg (by linarith)]

/-- Helper: rounding half to even moves the value by at most one half. -/
theorem roundHalfEven_close (q : ℚ) : |(roundHalfEven q : ℚ) - q| ≤ 1 / 2 := by
  simp only [roundHalfEven]
  have h1 : (⌊q⌋ : ℚ) ≤ q := Int.floor_le q
  have h2 : q < (⌊q⌋ : ℚ) + 1 := Int.lt_floor_add_one q
  split
  · rename_i h
    rw [abs_le]
    constructor <;> push_cast <;> linarith
  · split
    · rename_i h h'
      rw [abs_le]
      constructor <;> push_cast <;> linarith
    · rename_i h h'
      have hq : q - (⌊q⌋ : ℚ) = 1 / 2 := by linarith
      split <;> (rw [abs_le]; constructor <;> push_cast <;> linarith)

/-- Helper: rounding a nonnegative value stays nonnegative. -/
theorem roundHalfEven_nonneg (q : ℚ) (h : 0 ≤ q) : 0 ≤ roundHalfEven q := by
  have hf : 0 ≤ ⌊q⌋ := Int.le_floor.mpr (by exact_mod_cast h)
  simp only [roundHalfEven]
  split
  · exact hf
  · split
    · omega
    · split <;> omega

/-- Helper: rounding never exceeds the floor plus one. -/
theorem roundHalfEven_le (q : ℚ) : roundHalfEven q ≤ ⌊q⌋ + 1 := by
  simp only [roundHalfEven]
  split
  · omega
  · split
    · omega
    · split <;> omega

/-- Helper: the floor of a quotient by a positive natural is the integer
division of the floor. -/
theorem floor_div_natCast (x : ℚ) (n : ℕ) (hn : 0 < n) : ⌊x / n⌋ = ⌊x⌋ / n := by
  have hn' : (0 : ℤ) < (n : ℤ) := by exact_mod_cast hn
  have hnq : (0 : ℚ) < (n : ℚ) := by exact_mod_cast hn
  apply le_antisymm
  · have h1 : (⌊x / n⌋ : ℚ) ≤ x / n := Int.floor_le _
    have h2 : (⌊x / n⌋ : ℚ) * n ≤ x := (le_div_iff₀ hnq).mp h1
    have h3 : (⌊x / n⌋ * n : ℤ) ≤ ⌊x⌋ := Int.le_floor.mpr (by push_cast; exact h2)
    exact (Int.le_ediv_iff_mul_le hn').mpr h3
  · apply Int.le_floor.mpr
    have h4 : (⌊x⌋ / n * n : ℤ) ≤ ⌊x⌋ := Int.ediv_mul_le ⌊x⌋ (by omega)
    have h5 : ((⌊x⌋ / n : ℤ) : ℚ) * n ≤ (⌊x⌋ : ℚ) := by exact_mod_cast h4
    have h6 : ((⌊x⌋ : ℤ) : ℚ) ≤ x := Int.floor_le x
    rw [le_div_iff₀ hnq]
    linarith

/-- Helper: replacing periods by commas leaves digit characters alone. -/
theorem map_period_comma_digits (A : List Char)
    (h : ∀ c ∈ A, c.isDigit = true) :
    A.map (fun c => if c = '.' then ',' else c) = A := by
  induction A with
  | nil => rfl
  | cons a as ih =>
    have ha := h a (by simp)
    have hne : (a = '.') = False := by
      simp only [eq_iff_iff, iff_false]
      intro hc
      subst hc
      simp [Char.isDigit] at ha
    simp only [List.map_cons, hne, if_false]
    rw [ih fun c hc => h c (by simp [hc])]

/-- Helper: the comma's position after a digit block is the block's
length. -/
theorem indexOf_comma (A B : List Char) (h : ∀ c ∈ A, c.isDigit = true) :
    (A ++ ',' :: B).indexOf ',' = A.length := by
  induction A with
  | nil => simp
  | cons a as ih =>
    have ha := h a (by simp)
    have hne : (a == ',') = false := by
      apply beq_eq_false_iff_ne.mpr
      intro hc
      subst hc
      simp [Char.isDigit] at ha
    simp only [List.cons_append, List.indexOf_cons, hne, Bool.false_eq_true,
      cond_false]
    rw [ih fun c hc => h c (by simp [hc])]
    simp

/-- Helper: evaluating the round trip.  For a nonnegative input,
`to_timestr` renders the canonical four-block timecode, and `to_secs`
recovers the floor-decomposed components exactly. -/
theorem to_secs_to_timestr (x : ℚ) (hx : 0 ≤ x) :
    to_secs (to_timestr x) =
      some (((⌊x / 3600⌋ : ℤ) : ℚ) * 3600 +
        ((Int.fdiv (pyInt (pyMod x 3600)) 60 : ℤ) : ℚ) * 60 +
        ((roundHalfEven (pyMod x 60 * 1000) : ℤ) : ℚ) / 1000) := by
  have hA0 : 0 ≤ ⌊x / 3600⌋ := Int.le_floor.mpr (by positivity)
  have hpm36 : 0 ≤ pyMod x 3600 := pyMod_nonneg x 3600 (by norm_num)
  have hM0 : 0 ≤ Int.fdiv (pyInt (pyMod x 3600)) 60 := by
    rw [Int.fdiv_eq_ediv _ (by norm_num)]
    apply Int.ediv_nonneg _ (by norm_num)
    rw [pyInt_of_nonneg _ hpm36]
    exact Int.le_floor.mpr (by exact_mod_cast hpm36)
  have hs0 : 0 ≤ pyMod x 60 := pyMod_nonneg x 60 (by norm_num)
  have hs60 : pyMod x 60 < 60 := pyMod_lt x 60 (by norm_num)
  have hmc0 : 0 ≤ roundHalfEven (pyMod x 60 * 1000) :=
    roundHalfEven_nonneg _ (by positivity)
  have hmcU : roundHalfEven (pyMod x 60 * 1000) ≤ 60000 := by
    have h1 := roundHalfEven_le (pyMod x 60 * 1000)
    have h2 : ⌊pyMod x 60 * 1000⌋ < 60000 := Int.floor_lt.mpr (by push_cast; linarith)
    omega
  have hip0 : 0 ≤ roundHalfEven (pyMod x 60 * 1000) / 1000 :=
    Int.ediv_nonneg hmc0 (by norm_num)
  have hfr0 : 0 ≤ roundHalfEven (pyMod x 60 * 1000) % 1000 :=
    Int.emod_nonneg _ (by norm_num)
  have hfrU : roundHalfEven (pyMod x 60 * 1000) % 1000 < 1000 :=
    Int.emod_lt_of_pos _ (by norm_num)
  have hf3 : format3f (pyMod x 60) =
      natToChars (roundHalfEven (pyMod x 60 * 1000) / 1000).toNat ++
        '.' :: leftPad '0' 3
          (natToChars (roundHalfEven (pyMod x 60 * 1000) % 1000).toNat) := by
    simp only [format3f, intToChars]
    rw [if_neg (by omega)]
  have hrepl : ∀ A : List Char, (∀ c ∈ A, c.isDigit = true) →
      ∀ B : List Char, (∀ c ∈ B, c.isDigit = true) →
      (A ++ '.' :: B).map (fun c => if c = '.' then ',' else c) =
        A ++ ',' :: B := by
    intro A hA B hB
    rw [List.map_append, map_period_comma_digits A hA, List.map_cons,
      map_period_comma_digits B hB]
    norm_num
  have hsecs0 : (format3f (pyMod x 60)).map (fun c => if c = '.' then ',' else c) =
      natToChars (roundHalfEven (pyMod x 60 * 1000) / 1000).toNat ++
        ',' :: leftPad '0' 3
          (natToChars (roundHalfEven (pyMod x 60 * 1000) % 1000).toNat) := by
    rw [hf3]
    exact hrepl _ (natToChars_all_digit _) _
      (leftPad_all_digit _ _ (natToChars_all_digit _))
  have hidx : (natToChars (roundHalfEven (pyMod x 60 * 1000) / 1000).toNat ++
      ',' :: leftPad '0' 3
        (natToChars (roundHalfEven (pyMod x 60 * 1000) % 1000).toNat)).indexOf ',' =
      (natToChars (roundHalfEven (pyMod x 60 * 1000) / 1000).toNat).length :=
    indexOf_comma _ _ (natToChars_all_digit _)
  -- the whole rendered string, with the seconds integer block abstracted
  have hmain : ∀ D3 : List Char, D3 ≠ [] → (∀ c ∈ D3, c.isDigit = true) →
      digitsVal D3 = (roundHalfEven (pyMod x 60 * 1000) / 1000).toNat →
      to_secs ⟨leftPad '0' 2 (natToChars (⌊x / 3600⌋).toNat) ++ ':' ::
        (leftPad '0' 2 (natToChars (Int.fdiv (pyInt (pyMod x 3600)) 60).toNat) ++ ':' ::
          (D3 ++ ',' :: leftPad '0' 3
            (natToChars (roundHalfEven (pyMod x 60 * 1000) % 1000).toNat)))⟩ =
      some (((⌊x / 3600⌋ : ℤ) : ℚ) * 3600 +
        ((Int.fdiv (pyInt (pyMod x 3600)) 60 : ℤ) : ℚ) * 60 +
        ((roundHalfEven (pyMod x 60 * 1000) : ℤ) : ℚ) / 1000) := by
    intro D3 h3 g3 hv3
    rw [to_secs_canonical _ _ _ _
      (leftPad_ne_nil _ _ _ (natToChars_ne_nil _))
      (leftPad_ne_nil _ _ _ (natToChars_ne_nil _)) h3
      (leftPad_all_digit _ _ (natToChars_all_digit _))
      (leftPad_all_digit _ _ (natToChars_all_digit _)) g3
      (leftPad_all_digit _ _ (natToChars_all_digit _))]
    congr 1
    rw [digitsVal_leftPad, digitsVal_leftPad, digitsVal_natToChars,
      digitsVal_natToChars, hv3, digitsVal_leftPad, digitsVal_natToChars]
    have hlen : (leftPad '0' 3
        (natToChars (roundHalfEven (pyMod x 60 * 1000) % 1000).toNat)).length = 3 := by
      rw [leftPad_length]
      have : (natToChars (roundHalfEven (pyMod x 60 * 1000) % 1000).toNat).length ≤ 3 := by
        apply natToChars_length_le 3 (by norm_num)
        have : (roundHalfEven (pyMod x 60 * 1000) % 1000).toNat < 1000 := by omega
        calc (roundHalfEven (pyMod x 60 * 1000) % 1000).toNat < 1000 := this
          _ ≤ 10 ^ 3 := by norm_num
      omega
    rw [hlen]
    have hdiv : (1000 : ℤ) * (roundHalfEven (pyMod x 60 * 1000) / 1000) +
        roundHalfEven (pyMod x 60 * 1000) % 1000 =
        roundHalfEven (pyMod x 60 * 1000) := Int.ediv_add_emod _ _
    have c1 : ((⌊x / 3600⌋.toNat : ℕ) : ℚ) = ((⌊x / 3600⌋ : ℤ) : ℚ) := by
      exact_mod_cast congrArg (fun z : ℤ => (z : ℚ)) (Int.toNat_of_nonneg hA0)
    have c2 : (((Int.fdiv (pyInt (pyMod x 3600)) 60).toNat : ℕ) : ℚ) =
        ((Int.fdiv (pyInt (pyMod x 3600)) 60 : ℤ) : ℚ) := by
      exact_mod_cast congrArg (fun z : ℤ => (z : ℚ)) (Int.toNat_of_nonneg hM0)
    have c3 : (((roundHalfEven (pyMod x 60 * 1000) / 1000).toNat : ℕ) : ℚ) =
        ((roundHalfEven (pyMod x 60 * 1000) / 1000 : ℤ) : ℚ) := by
      exact_mod_cast congrArg (fun z : ℤ => (z : ℚ)) (Int.toNat_of_nonneg hip0)
    have c4 : (((roundHalfEven (pyMod x 60 * 1000) % 1000).toNat : ℕ) : ℚ) =
        ((roundHalfEven (pyMod x 60 * 1000) % 1000 : ℤ) : ℚ) := by
      exact_mod_cast congrArg (fun z : ℤ => (z : ℚ)) (Int.toNat_of_nonneg hfr0)
    rw [c1, c2, c3, c4]
    have hdivq : ((roundHalfEven (pyMod x 60 * 1000) / 1000 : ℤ) : ℚ) +
        ((roundHalfEven (pyMod x 60 * 1000) % 1000 : ℤ) : ℚ) / 10 ^ 3 =
        ((roundHalfEven (pyMod x 60 * 1000) : ℤ) : ℚ) / 1000 := by
      have := congrArg (fun z : ℤ => ((z : ℚ))) hdiv
      push_cast at this
      norm_num
      linarith
    rw [hdivq]
  -- unfold to_timestr and dispatch the two padding cases
  simp only [to_timestr, format02d]
  rw [if_neg (by omega), if_neg (by omega), hsecs0, hidx]
  by_cases hone :
      (natToChars (roundHalfEven (pyMod x 60 * 1000) / 1000).toNat).length = 1
  · rw [if_pos hone]
    have h3dig : ∀ c ∈ ('0' :: natToChars
        (roundHalfEven (pyMod x 60 * 1000) / 1000).toNat), c.isDigit = true := by
      intro c hc
      rcases List.mem_cons.mp hc with rfl | hc2
      · rfl
      · exact natToChars_all_digit _ c hc2
    have h3val : digitsVal ('0' :: natToChars
        (roundHalfEven (pyMod x 60 * 1000) / 1000).toNat) =
        (roundHalfEven (pyMod x 60 * 1000) / 1000).toNat := by
      have h0 : ('0' :: natToChars
          (roundHalfEven (pyMod x 60 * 1000) / 1000).toNat) =
          List.replicate 1 '0' ++ natToChars
            (roundHalfEven (pyMod x 60 * 1000) / 1000).toNat := by
        simp
      rw [h0, digitsVal_replicate_zero, digitsVal_natToChars]
    have hm := hmain ('0' :: natToChars
      (roundHalfEven (pyMod x 60 * 1000) / 1000).toNat) (by simp) h3dig h3val
    simpa only [List.append_assoc, List.cons_append] using hm
  · rw [if_neg hone]
    have hm := hmain (natToChars (roundHalfEven (pyMod x 60 * 1000) / 1000).toNat)
      (natToChars_ne_nil _) (natToChars_all_digit _) (digitsVal_natToChars _)
    simpa only [List.append_assoc, List.cons_append] using hm

/-- C4: for every x ≥ 0, formatting x as a timecode and parsing it back
recovers x within millisecond tolerance (the exact rounding error is at
most half a millisecond). -/
theorem parse_format_roundtrip (x : ℚ) (hx : 0 ≤ x) :
    ∃ y : ℚ, to_secs (to_timestr x) = some y ∧ |y - x| ≤ 1 / 1000 := by
  refine ⟨_, to_secs_to_timestr x hx, ?_⟩
  have hpm36 : 0 ≤ pyMod x 3600 := pyMod_nonneg x 3600 (by norm_num)
  have hMed : Int.fdiv (pyInt (pyMod x 3600)) 60 = ⌊x / 60⌋ - 60 * ⌊x / 3600⌋ := by
    rw [Int.fdiv_eq_ediv _ (by norm_num), pyInt_of_nonneg _ hpm36]
    have h1 : pyMod x 3600 = x - ((3600 * ⌊x / 3600⌋ : ℤ) : ℚ) := by
      unfold pyMod
      push_cast
      ring
    rw [h1, Int.floor_sub_int]
    have h2 : ⌊x⌋ - 3600 * ⌊x / 3600⌋ = ⌊x⌋ + -(60 * ⌊x / 3600⌋) * 60 := by ring
    rw [h2, Int.add_mul_ediv_right _ _ (by norm_num : (60 : ℤ) ≠ 0)]
    have h3 : ⌊x⌋ / (60 : ℤ) = ⌊x / (60 : ℚ)⌋ := by
      have h := floor_div_natCast x 60 (by norm_num)
      push_cast at h
      omega
    omega
  have hdecomp60 : x = 60 * (⌊x / 60⌋ : ℚ) + pyMod x 60 := pyMod_decomp x 60
  have hclose := roundHalfEven_close (pyMod x 60 * 1000)
  rw [hMed]
  have hyx : (((⌊x / 3600⌋ : ℤ) : ℚ) * 3600 +
      ((⌊x / 60⌋ - 60 * ⌊x / 3600⌋ : ℤ) : ℚ) * 60 +
      ((roundHalfEven (pyMod x 60 * 1000) : ℤ) : ℚ) / 1000) - x =
      (((roundHalfEven (pyMod x 60 * 1000) : ℤ) : ℚ) - pyMod x 60 * 1000) / 1000 := by
    push_cast
    have : x - pyMod x 60 = 60 * (⌊x / 60⌋ : ℚ) := by linarith
    field_simp
    linarith
  rw [hyx, abs_div]
  have h1000 : |(1000 : ℚ)| = 1000 := by norm_num
  rw [h1000]
  rw [div_le_iff₀ (by norm_num : (0 : ℚ) < 1000)]
  have : (1 : ℚ) / 1000 * 1000 = 1 := by norm_num
  rw [this]
  linarith

/-- Witness for C4 at a concrete input: 9876.54321 round-trips within a
millisecond (the third decimal is rounded). -/
theorem parse_format_roundtrip_witness :
    (0 ≤ (987654321 / 100000 : ℚ)) ∧
    ∃ y : ℚ, to_secs (to_timestr (987654321 / 100000)) = some y ∧
      |y - (987654321 / 100000 : ℚ)| ≤ 1 / 1000 :=
  ⟨by norm_num, parse_format_roundtrip (987654321 / 100000) (by norm_num)⟩

/-- C9: the time setters accept either a numeric seconds value — returned
unchanged, never failing — or a timecode string, converted to the denoted
seconds: a four-block timecode `H:M:S,F` denotes
`3600 * H + 60 * M + (S + F / 10 ^ |F|)` seconds, and the spec's concrete
examples evaluate as claimed. -/
theorem time_input_normalization :
    (∀ q : ℚ, SubtextEntry.set_intime (.num q) = some q) ∧
    (∀ D1 D2 D3 D4 : List Char, D1 ≠ [] → D2 ≠ [] → D3 ≠ [] →
      (∀ c ∈ D1, c.isDigit = true) → (∀ c ∈ D2, c.isDigit = true) →
      (∀ c ∈ D3, c.isDigit = true) → (∀ c ∈ D4, c.isDigit = true) →
      SubtextEntry.set_intime
          (.str ⟨D1 ++ ':' :: (D2 ++ ':' :: (D3 ++ ',' :: D4))⟩) =
        some ((digitsVal D1 : ℚ) * 3600 + (digitsVal D2 : ℚ) * 60 +
          ((digitsVal D3 : ℚ) + (digitsVal D4 : ℚ) / 10 ^ D4.length))) ∧
    to_secs "01:02:03,456" = some (3723456 / 1000) ∧
    to_secs "3,5" = some (7 / 2) ∧
    to_secs "-00:00:01,000" = some (-1) := by
  refine ⟨fun q => rfl, ?_, ?_, ?_, ?_⟩
  · intro D1 D2 D3 D4 h1 h2 h3 g1 g2 g3 g4
    exact to_secs_canonical D1 D2 D3 D4 h1 h2 h3 g1 g2 g3 g4
  · have hstr : ("01:02:03,456" : String) =
        ⟨['0', '1'] ++ ':' :: (['0', '2'] ++ ':' ::
          (['0', '3'] ++ ',' :: ['4', '5', '6']))⟩ := by
      decide
    rw [hstr, to_secs_canonical ['0', '1'] ['0', '2'] ['0', '3'] ['4', '5', '6']
      (by decide) (by decide) (by decide) (by decide) (by decide) (by decide)
      (by decide)]
    have v1 : digitsVal ['0', '1'] = 1 := by decide
    have v2 : digitsVal ['0', '2'] = 2 := by decide
    have v3 : digitsVal ['0', '3'] = 3 := by decide
    have v4 : digitsVal ['4', '5', '6'] = 456 := by decide
    rw [v1, v2, v3, v4]
    norm_num
  · with_unfolding_all decide
  · with_unfolding_all decide

/-- Witness for C9 at a concrete input: the four-block statement applied to
the blocks of "01:02:03,456". -/
theorem time_input_normalization_witness :
    (['0', '1'] ≠ ([] : List Char)) ∧
    SubtextEntry.set_intime (.str ⟨['0', '1'] ++ ':' ::
        (['0', '2'] ++ ':' :: (['0', '3'] ++ ',' :: ['4', '5', '6']))⟩) =
      some ((digitsVal ['0', '1'] : ℚ) * 3600 + (digitsVal ['0', '2'] : ℚ) * 60 +
        ((digitsVal ['0', '3'] : ℚ) +
          (digitsVal ['4', '5', '6'] : ℚ) / 10 ^ (['4', '5', '6'] : List Char).length)) :=
  ⟨by decide, time_input_normalization.2.1 ['0', '1'] ['0', '2'] ['0', '3']
    ['4', '5', '6'] (by decide) (by decide) (by decide) (by decide) (by decide)
    (by decide) (by decide)⟩

end Srthandler
